import Mathlib

/-!
# Verification of the parity light-client request/response core

A shallow embedding of the subsystem described in `spec.md`:

* the PIP wire codec over RLP (`src/ethcore/light/src/types/request/mod.rs`),
* the back-reference field resolver (`Field<T>`, `check_outputs`, `fill`),
* the on-demand verifiers (`src/ethcore/light/src/on_demand/request.rs`),
* the modexp builtin pricer (`src/ethcore/src/builtin.rs`),
* the vote collector (`src/ethcore/src/engines/vote_collector.rs`).

RLP is modelled at the level of its item tree: an item is either a byte
string or a list of items.  The byte-level length-prefixed rendering of a
tree is injective, so every structural statement about encode/decode pairs
is faithfully expressed on trees.  Machine integers are `Nat` with explicit
`% 2 ^ 256` where U256 overflow matters.
-/

namespace Parity

/-- Big-endian interpretation of a byte string, as in the rlp crate's
uint decoding (`acc * 256 + b` over the bytes). -/
def beToNat (bs : List Nat) : Nat := bs.foldl (fun acc b => acc * 256 + b) 0

/-- Auxiliary: minimal big-endian digits of `n` with a structural fuel.
`fuel` bounds the number of base-256 digits produced. -/
def natToBeAux : Nat → Nat → List Nat
  | 0, _ => []
  | fuel + 1, n => if n = 0 then [] else natToBeAux fuel (n / 256) ++ [n % 256]

/-- Minimal big-endian byte representation of `n` (empty for 0), as the rlp
crate encodes unsigned integers.  `n` itself always dominates the digit
count, so the fuel never runs out. -/
def natToBe (n : Nat) : List Nat := natToBeAux n n

/-- Big-endian representation of `n` zero-padded on the left to `w` bytes,
as in fixed-width hash encodings (`H256`). -/
def natToBeFixed (w n : Nat) : List Nat :=
  List.replicate (w - (natToBe n).length) 0 ++ natToBe n

/-- Modelled from the spec: the wire codec of §4.1 is "a length-prefixed,
recursive, canonical binary encoding" of byte strings and lists (the rlp
crate, `util/rlp`, is not under `src/`).  An RLP item tree: a byte string or
a list of items. -/
inductive Rlp where
  | str : List Nat → Rlp
  | list : List Rlp → Rlp

/-- Decoder errors of the rlp crate that the embedded decoders distinguish. -/
inductive DecoderError where
  | rlpExpectedToBeData
  | rlpExpectedToBeList
  | rlpIsTooShort
  | rlpIsTooBig
  | custom : String → DecoderError
deriving DecidableEq

/-- `UntrustedRlp::at(i)`: item `i` of a list. -/
def rlpAt : Rlp → Nat → Except DecoderError Rlp
  | .str _, _ => .error .rlpExpectedToBeList
  | .list xs, i =>
    match xs.get? i with
    | some x => .ok x
    | none => .error .rlpIsTooShort

/-- `Decodable for Vec<u8>`: a byte string is read from a data item only. -/
def decBytes : Rlp → Except DecoderError (List Nat)
  | .str bs => .ok bs
  | .list _ => .error .rlpExpectedToBeData

/-- Integer decoding (`u8`): a data item of at most one byte. -/
def decU8 : Rlp → Except DecoderError Nat
  | .str bs => if bs.length ≤ 1 then .ok (beToNat bs) else .error .rlpIsTooBig
  | .list _ => .error .rlpExpectedToBeData

/-- Integer decoding (`u64`/`usize`): a data item of at most eight bytes. -/
def decUsize : Rlp → Except DecoderError Nat
  | .str bs => if bs.length ≤ 8 then .ok (beToNat bs) else .error .rlpIsTooBig
  | .list _ => .error .rlpExpectedToBeData

/-- `H256` decoding: exactly 32 bytes. -/
def decH256 : Rlp → Except DecoderError Nat
  | .str bs =>
    if bs.length = 32 then .ok (beToNat bs)
    else if bs.length < 32 then .error .rlpIsTooShort
    else .error .rlpIsTooBig
  | .list _ => .error .rlpExpectedToBeData

/-- `U256` decoding: a data item of at most 32 bytes. -/
def decU256 : Rlp → Except DecoderError Nat
  | .str bs => if bs.length ≤ 32 then .ok (beToNat bs) else .error .rlpIsTooBig
  | .list _ => .error .rlpExpectedToBeData

/-- `UntrustedRlp::as_list`: decode every item of a list with `f`. -/
def rlpAsList (f : Rlp → Except DecoderError α) : Rlp → Except DecoderError (List α)
  | .str _ => .error .rlpExpectedToBeList
  | .list xs => xs.mapM f

/-- Integer encoding: minimal big-endian data item (`impl Encodable` for the
uint types). -/
def encUint (n : Nat) : Rlp := .str (natToBe n)

/-- `H256` encoding: a 32-byte data item. -/
def encH256 (h : Nat) : Rlp := .str (natToBeFixed 32 h)

end Parity

namespace Parity

/-! ## Field resolver (`src/ethcore/light/src/types/request/mod.rs`) -/

/-- `NoSuchOutput`: reference to a non-existent or wrongly-typed output. -/
inductive NoSuchOutput where
  | noSuchOutput
deriving DecidableEq

/-- An input to a request: a scalar or a back-reference
`(request index, output index)`. -/
inductive Field (T : Type) where
  | scalar : T → Field T
  | backReference : Nat → Nat → Field T
deriving DecidableEq

/-- Request outputs which can be reused as inputs. -/
inductive Output where
  | hash : Nat → Output
  | number : Nat → Output
deriving DecidableEq

/-- Output kinds. -/
inductive OutputKind where
  | hash
  | number
deriving DecidableEq, BEq

/-- Either a block hash or a block number. -/
inductive HashOrNumber where
  | hash : Nat → HashOrNumber
  | number : Nat → HashOrNumber
deriving DecidableEq

/-- `Field<T>` decoding (`impl<T: Decodable> Decodable for Field<T>`,
request/mod.rs lines 107–118): discriminant 0 is a scalar, discriminant 1 a
two-element back-reference list, anything else an unknown-discriminant
error. -/
def fieldDecode (decT : Rlp → Except DecoderError T) (rlp : Rlp) :
    Except DecoderError (Field T) := do
  match ← decU8 (← rlpAt rlp 0) with
  | 0 => return Field.scalar (← decT (← rlpAt rlp 1))
  | 1 =>
    let inner ← rlpAt rlp 1
    return Field.backReference (← decUsize (← rlpAt inner 0)) (← decUsize (← rlpAt inner 1))
  | _ => throw (.custom "Unknown discriminant for PIP field.")

/-! ## Request kinds: Headers, Receipts, Body
(`src/ethcore/light/src/types/request/mod.rs`, modules `header`,
`block_receipts`, `block_body`) -/

namespace header

/-- Potentially incomplete headers request. -/
structure Incomplete where
  start : Field HashOrNumber
  skip : Nat
  max : Nat
  reverse : Bool
deriving DecidableEq

/-- `header::Incomplete::check_outputs` (lines 557–565): a back-referenced
start slot is accepted if the batch validator `f` accepts it as a Hash
output or, failing that, as a Number output (`or_else`). -/
def Incomplete.check_outputs (req : Incomplete)
    (f : Nat → Nat → OutputKind → Except NoSuchOutput Unit) :
    Except NoSuchOutput Unit :=
  match req.start with
  | .scalar _ => .ok ()
  | .backReference r idx =>
    match f r idx .hash with
    | .ok u => .ok u
    | .error _ => f r idx .number

/-- `header::Incomplete::fill` (lines 569–577): a Hash output becomes a
`HashOrNumber::Hash` scalar, a Number output a `HashOrNumber::Number`
scalar, and an oracle failure leaves the back-reference in place. -/
def Incomplete.fill (req : Incomplete)
    (oracle : Nat → Nat → Except NoSuchOutput Output) : Incomplete :=
  match req.start with
  | .backReference r idx =>
    { req with
      start :=
        match oracle r idx with
        | .ok (.hash h) => .scalar (.hash h)
        | .ok (.number n) => .scalar (.number n)
        | .error _ => .backReference r idx }
  | _ => req

end header

namespace block_receipts

/-- Potentially incomplete block receipts request. -/
structure Incomplete where
  hash : Field Nat
deriving DecidableEq

/-- `block_receipts::Incomplete::check_outputs` (lines 781–788): the
back-referenced block-hash slot is checked against `OutputKind::Hash`. -/
def Incomplete.check_outputs (req : Incomplete)
    (f : Nat → Nat → OutputKind → Except NoSuchOutput Unit) :
    Except NoSuchOutput Unit :=
  match req.hash with
  | .scalar _ => .ok ()
  | .backReference r idx => f r idx .hash

/-- `block_receipts::Incomplete::fill` (lines 792–799).  The source matches
`Ok(Output::Number(hash)) => Field::Scalar(hash.into())`: a Number output is
converted into an `H256` (`H256::from(u64)`, value-preserving big-endian)
and stored as the scalar, while a Hash output falls into the `_` arm and
leaves the back-reference pending. -/
def Incomplete.fill (req : Incomplete)
    (oracle : Nat → Nat → Except NoSuchOutput Output) : Incomplete :=
  match req.hash with
  | .backReference r idx =>
    { hash :=
        match oracle r idx with
        | .ok (.number n) => .scalar n
        | _ => .backReference r idx }
  | _ => req

end block_receipts

namespace block_body

/-- Potentially incomplete block body request. -/
structure Incomplete where
  hash : Field Nat
deriving DecidableEq

/-- `block_body::Incomplete::fill` (lines 885–892): only a Hash output
resolves the block-hash field; anything else leaves it pending. -/
def Incomplete.fill (req : Incomplete)
    (oracle : Nat → Nat → Except NoSuchOutput Output) : Incomplete :=
  match req.hash with
  | .backReference r idx =>
    { hash :=
        match oracle r idx with
        | .ok (.hash h) => .scalar h
        | _ => .backReference r idx }
  | _ => req

end block_body

/-! ## Header-proof response codec
(`src/ethcore/light/src/types/request/mod.rs`, module `header_proof`) -/

namespace header_proof

/-- The output of a request for a header proof. -/
structure Response where
  proof : List (List Nat)
  hash : Nat
  td : Nat
deriving DecidableEq

/-- `header_proof::Response` encoding (lines 738–747).  The stream is
`begin_list(3).begin_list(proof.len())`, then each proof item is appended
with `s.append_list(&item)`: `append_list::<E, K>(values: &[K])` receives
`&&Vec<u8>`, which deref-coerces to `&[u8]`, so each item is emitted as an
RLP *list* of its bytes encoded as `u8` integers.  Then the hash and total
difficulty are appended as data items. -/
def rlp_append (res : Response) : Rlp :=
  .list
    [ .list (res.proof.map fun item => .list (item.map encUint)),
      encH256 res.hash,
      encUint res.td ]

/-- `header_proof::Response` decoding (lines 727–736): `proof` is read with
`rlp.list_at(0)` — every item of the first list must be a byte *string* —
then the hash and total difficulty. -/
def decode (rlp : Rlp) : Except DecoderError Response := do
  let proof ← rlpAsList decBytes (← rlpAt rlp 0)
  let hash ← decH256 (← rlpAt rlp 1)
  let td ← decU256 (← rlpAt rlp 2)
  return { proof := proof, hash := hash, td := td }

end header_proof

/-! ## On-demand verifiers (`src/ethcore/light/src/on_demand/request.rs`)

The domain hash (`sha3`, keccak-style) and the ordered trie root are
external primitives (`util`), opaque to this subsystem; the verifiers are
parametrised over them. -/

namespace on_demand

/-- Errors in verification (request.rs lines 36–50). -/
inductive Error where
  | badProof
  | wrongNumber : Nat → Nat → Error
  | wrongHash : Nat → Nat → Error
  | wrongTrieRoot : Nat → Nat → Error
deriving DecidableEq

/-- `HeaderByHash::check_response` (lines 110–116): recompute the domain
hash of the received encoded header (raw bytes) and accept iff it equals
the requested hash; otherwise fail with `WrongHash(expected, found)`. -/
def headerByHashCheck (sha3 : List Nat → Nat) (requested : Nat)
    (header : List Nat) : Except Error (List Nat) :=
  let hash := sha3 header
  if hash = requested then .ok header else .error (.wrongHash requested hash)

/-- The trusted header held by a `Body` request: its raw RLP together with
the accessor values the verifier reads from it. -/
structure TrustedHeader where
  raw : Rlp
  transactionsRoot : Nat
  unclesHash : Nat

/-- `Body::check_response` (lines 139–157).  The response body is the RLP
list `[transactions, uncles]`.  The ordered trie root of the raw
transaction items is compared with `header.transactions_root`, the domain
hash of the raw uncles list with `header.uncles_hash`.  On success the
header and body are concatenated: the stream appends the header's raw bytes
and then the body's raw bytes (`append_raw(body, 2)`), so the resulting
bytes form the two-item list `[header, [transactions, uncles]]`. -/
def bodyCheckResponse (sha3 : Rlp → Nat) (orderedTrieRoot : List Rlp → Nat)
    (header : TrustedHeader) (transactions uncles : List Rlp) :
    Except Error Rlp :=
  let txRoot := orderedTrieRoot transactions
  if txRoot ≠ header.transactionsRoot then
    .error (.wrongTrieRoot header.transactionsRoot txRoot)
  else
    let unclesHash := sha3 (.list uncles)
    if unclesHash ≠ header.unclesHash then
      .error (.wrongHash header.unclesHash unclesHash)
    else
      .ok (.list [header.raw, .list [.list transactions, .list uncles]])

end on_demand

/-! ## Modexp builtin pricing (`src/ethcore/src/builtin.rs`) -/

namespace builtin

/-- `2 ^ 256`, the size of the U256 value space. -/
def U256limit : Nat := 2 ^ 256

/-- `U256::max_value()`. -/
def u256Max : Nat := U256limit - 1

/-- `U256::overflowing_mul`: the truncated product together with the
overflow flag. -/
def overflowingMul (a b : Nat) : Nat × Bool :=
  (a * b % U256limit, decide (U256limit ≤ a * b))

/-- One 32-byte big-endian length word read from the input zero-extended on
the right (`input.chain(io::repeat(0))`), starting at byte `off`. -/
def readLenWord (input : List Nat) (off : Nat) : Nat :=
  beToNat ((List.range 32).map fun j => input.getD (off + j) 0)

/-- `impl Pricer for Modexp` (builtin.rs lines 59–86): read `base_len`,
`exp_len`, `mod_len` as the three U256 length words; saturate to
`U256::max_value()` if `max(mod_len, base_len)^2` overflows or the further
product with `max(exp_len, 1)` overflows, otherwise divide by the divisor. -/
def modexpCost (divisor : Nat) (input : List Nat) : Nat :=
  let base_len := readLenWord input 0
  let exp_len := readLenWord input 32
  let mod_len := readLenWord input 64
  let m := max mod_len base_len
  match overflowingMul m m with
  | (_, true) => u256Max
  | (val, false) =>
    match overflowingMul val (max exp_len 1) with
    | (_, true) => u256Max
    | (val2, false) => val2 / divisor

/-- Divisor selection in `From<ethjson::spec::Builtin> for Builtin`
(builtin.rs lines 120–129): a configured divisor of zero falls back to the
default 10. -/
def modexpDivisorFromJson (d : Nat) : Nat := if d = 0 then 10 else d

end builtin

/-! ## Vote collector (`src/ethcore/src/engines/vote_collector.rs`)

Addresses (`H160`), signatures (`H520`) and block hashes (`H256`) are
opaque identifiers, modelled as `Nat`.  A message carries its round, an
optional block hash, its signature, and an opaque payload (the `Message`
trait only exposes accessors, so distinct messages may agree on all
accessor values).  Hash sets and hash maps are modelled as lists with
membership, and the round-keyed `BTreeMap` as an association list;
`split_off(&k)` keeps exactly the keys `≥ k`. -/

namespace vote_collector

/-- A vote message, via its `Message`-trait accessors plus opaque payload. -/
structure Msg where
  round : Nat
  block_hash : Option Nat
  signature : Nat
  payload : Nat
deriving DecidableEq

/-- `HashSet::insert`: whether the element was new, and the updated set. -/
def insertSet [DecidableEq α] (x : α) (s : List α) : Bool × List α :=
  if x ∈ s then (false, s) else (true, x :: s)

/-- Map lookup (`HashMap::get` / `BTreeMap::get`). -/
def mapGet [DecidableEq κ] (k : κ) : List (κ × ν) → Option ν
  | [] => none
  | (k', v) :: t => if k = k' then some v else mapGet k t

/-- Map insert, replacing the value at an existing key
(`HashMap::insert` / `BTreeMap::entry`). -/
def mapInsert [DecidableEq κ] (k : κ) (v : ν) : List (κ × ν) → List (κ × ν)
  | [] => [(k, v)]
  | (k', v') :: t => if k = k' then (k, v) :: t else (k', v') :: mapInsert k v t

/-- Per-round state: voted addresses, per-block-hash signature→address map,
and the seen-message set. -/
structure StepCollector where
  voted : List Nat
  block_votes : List (Option Nat × List (Nat × Nat))
  messages : List Msg
deriving DecidableEq

/-- `StepCollector::insert` (vote_collector.rs lines 50–65): do nothing if
the message was seen; otherwise, if the address is new this round, record
the signature under the message's block hash, else report the address as a
double-voter (the message still having been added to the seen set). -/
def StepCollector.insert (c : StepCollector) (m : Msg) (a : Nat) :
    Option Nat × StepCollector :=
  match insertSet m c.messages with
  | (false, _) => (none, c)
  | (true, msgs) =>
    match insertSet a c.voted with
    | (true, voted) =>
      (none,
        { voted := voted,
          block_votes :=
            mapInsert m.block_hash
              (mapInsert m.signature a ((mapGet m.block_hash c.block_votes).getD []))
              c.block_votes,
          messages := msgs })
    | (false, _) => (some a, { c with messages := msgs })

/-- `StepCollector::count_block` (lines 68–70). -/
def StepCollector.count_block (c : StepCollector) (bh : Option Nat) : Nat :=
  ((mapGet bh c.block_votes).getD []).length

/-- `StepCollector::count` (lines 73–75). -/
def StepCollector.count (c : StepCollector) : Nat :=
  (c.block_votes.map fun e => e.2.length).sum

/-- The round-keyed collector state. -/
abbrev VoteCollector := List (Nat × StepCollector)

/-- `VoteCollector::vote` (lines 104–111):
`entry(round).or_insert_with(Default::default).insert(message, voter)`. -/
def vote (vc : VoteCollector) (m : Msg) (a : Nat) : Option Nat × VoteCollector :=
  let c := (mapGet m.round vc).getD ⟨[], [], []⟩
  let r := c.insert m a
  (r.1, mapInsert m.round r.2 vc)

/-- `VoteCollector::throw_out_old` (lines 133–137): `split_off` retains
exactly the rounds `≥ vote_round`. -/
def throw_out_old (vc : VoteCollector) (vote_round : Nat) : VoteCollector :=
  vc.filter fun e => vote_round ≤ e.1

/-- Signatures used to seal a block. -/
structure SealSignatures where
  proposal : Nat
  votes : List Nat
deriving DecidableEq

/-- `VoteCollector::seal_signatures` (lines 140–163): one proposal
signature for the hash at the proposal round plus all commit-round
signatures for the hash; `None` if either is missing or the commit set is
empty.  Only on success are rounds older than `commit_round` dropped. -/
def seal_signatures (vc : VoteCollector) (proposal_round commit_round : Nat)
    (block_hash : Nat) : Option SealSignatures × VoteCollector :=
  let bh := some block_hash
  let maybe_seal : Option SealSignatures :=
    match (mapGet proposal_round vc).bind (fun c => mapGet bh c.block_votes) with
    | none => none
    | some proposals =>
      match proposals.head? with
      | none => none
      | some p =>
        let votes :=
          (((mapGet commit_round vc).bind (fun c => mapGet bh c.block_votes)).map
            (fun precommits => precommits.map Prod.fst)).getD []
        if votes.isEmpty then none else some ⟨p.1, votes⟩
  match maybe_seal with
  | some s => (some s, throw_out_old vc commit_round)
  | none => (none, vc)

/-- `VoteCollector::count_aligned_votes` (lines 166–172). -/
def count_aligned_votes (vc : VoteCollector) (m : Msg) : Nat :=
  match mapGet m.round vc with
  | some c => c.count_block m.block_hash
  | none => 0

/-- `VoteCollector::count_round_votes` (lines 175–177). -/
def count_round_votes (vc : VoteCollector) (r : Nat) : Nat :=
  match mapGet r vc with
  | some c => c.count
  | none => 0

/-- The message is in the seen set of its round. -/
def seen (vc : VoteCollector) (m : Msg) : Bool :=
  match mapGet m.round vc with
  | some c => decide (m ∈ c.messages)
  | none => false

/-- The address has already voted in round `r`. -/
def votedAt (vc : VoteCollector) (r a : Nat) : Bool :=
  match mapGet r vc with
  | some c => decide (a ∈ c.voted)
  | none => false

/-- The round-`r` entry holds at least one signature for block hash `h`. -/
def hasSigFor (vc : VoteCollector) (r h : Nat) : Bool :=
  match (mapGet r vc).bind (fun c => mapGet (some h) c.block_votes) with
  | some sigs => !sigs.isEmpty
  | none => false

end vote_collector

/-! ## Helper lemmas -/

theorem except_bind_ok (a : α) (f : α → Except ε β) : (Except.ok a >>= f) = f a := rfl

theorem except_bind_error (e : ε) (f : α → Except ε β) :
    ((Except.error e : Except ε α) >>= f) = .error e := rfl

theorem mapGet_mapInsert_self [DecidableEq κ] (k : κ) (v : ν) (l : List (κ × ν)) :
    vote_collector.mapGet k (vote_collector.mapInsert k v l) = some v := by
  induction l with
  | nil => simp [vote_collector.mapGet, vote_collector.mapInsert]
  | cons hd t ih =>
    by_cases h : k = hd.1
    · simp [vote_collector.mapInsert, vote_collector.mapGet, h]
    · simp [vote_collector.mapInsert, vote_collector.mapGet, h, ih]

theorem mapGet_mapInsert_ne [DecidableEq κ] {k k' : κ} (v : ν) (l : List (κ × ν))
    (h : k' ≠ k) :
    vote_collector.mapGet k' (vote_collector.mapInsert k v l) =
      vote_collector.mapGet k' l := by
  induction l with
  | nil => simp [vote_collector.mapGet, vote_collector.mapInsert, h]
  | cons hd t ih =>
    by_cases hk : k = hd.1
    · subst hk
      simp [vote_collector.mapInsert, vote_collector.mapGet, h]
    · simp only [vote_collector.mapInsert, vote_collector.mapGet, if_neg hk]
      by_cases hk' : k' = hd.1
      · simp [vote_collector.mapGet, hk']
      · simp [vote_collector.mapGet, hk', ih]

theorem mapInsert_self [DecidableEq κ] {k : κ} {v : ν} {l : List (κ × ν)}
    (h : vote_collector.mapGet k l = some v) :
    vote_collector.mapInsert k v l = l := by
  induction l with
  | nil => simp [vote_collector.mapGet] at h
  | cons hd t ih =>
    by_cases hk : k = hd.1
    · rw [vote_collector.mapGet, if_pos hk] at h
      cases h
      simp [vote_collector.mapInsert, if_pos hk, hk]
    · rw [vote_collector.mapGet, if_neg hk] at h
      simp [vote_collector.mapInsert, if_neg hk, ih h]

/-! ## Claims -/

/-- Claim C1.  The claim states that the Receipts and Body requests'
block-hash fields resolve only on a Hash oracle output and stay pending on
a Number output.  `block_body::Incomplete::fill` behaves that way, but
`block_receipts::Incomplete::fill` (request/mod.rs lines 792–799) matches
`Ok(Output::Number(hash))`: it resolves a Number output into an H256 scalar
and leaves a Hash output pending, contradicting its own
`check_outputs`, which declares the slot as requiring `OutputKind::Hash`.
This theorem evaluates both fills on a back-referenced field at the failing
oracle outputs. -/
theorem receipts_fill_resolves_number_and_rejects_hash :
    block_receipts.Incomplete.fill ⟨.backReference 0 0⟩ (fun _ _ => .ok (.number 5)) =
      ⟨.scalar 5⟩
    ∧ block_receipts.Incomplete.fill ⟨.backReference 0 0⟩ (fun _ _ => .ok (.hash 7)) =
      ⟨.backReference 0 0⟩
    ∧ block_body.Incomplete.fill ⟨.backReference 0 0⟩ (fun _ _ => .ok (.hash 7)) =
      ⟨.scalar 7⟩ :=
  ⟨rfl, rfl, rfl⟩

/-- Claim C2.  The claim states `decode(encode(v)) == v` for every
well-formed request, response and primitive.  It fails on the
`header_proof::Response` variant (likewise `account` and `storage`):
the encoder emits every proof item as an RLP list of byte-integers
(per-item `append_list`), while the decoder (`list_at(0)`) requires byte
strings, so any response with a non-empty proof does not round-trip: the
decoder fails with `RlpExpectedToBeData`. -/
theorem header_proof_response_roundtrip_fails :
    header_proof.decode (header_proof.rlp_append ⟨[[1]], 0, 100⟩) =
      .error .rlpExpectedToBeData
    ∧ header_proof.decode (header_proof.rlp_append ⟨[[1]], 0, 100⟩) ≠
      .ok ⟨[[1]], 0, 100⟩ := by
  refine ⟨rfl, fun h => ?_⟩
  rw [show header_proof.decode (header_proof.rlp_append ⟨[[1]], 0, 100⟩) =
        .error .rlpExpectedToBeData from rfl] at h
  exact Except.noConfusion h

/-- Claim C6.  HeaderByHash verification succeeds exactly when the
recomputed domain hash of the received header equals the requested hash,
and on a mismatch fails with `WrongHash(expected, found)` carrying the
requested hash first and the computed hash second. -/
theorem header_by_hash_check_spec (sha3 : List Nat → Nat) (requested : Nat)
    (hdr : List Nat) :
    (on_demand.headerByHashCheck sha3 requested hdr = .ok hdr ↔ sha3 hdr = requested)
    ∧ (sha3 hdr ≠ requested →
        on_demand.headerByHashCheck sha3 requested hdr =
          .error (.wrongHash requested (sha3 hdr))) := by
  by_cases h : sha3 hdr = requested <;>
    simp [on_demand.headerByHashCheck, h]

/-- Claim C6 witness: a header hashing to 0 submitted under a request for
hash 1 fails with `WrongHash(1, 0)`. -/
theorem header_by_hash_check_spec_witness :
    on_demand.headerByHashCheck (fun _ => 0) 1 [] = .error (.wrongHash 1 0) :=
  (header_by_hash_check_spec (fun _ => 0) 1 []).2 (by decide)

/-- Claim C7.  The Headers request's start field is polymorphic: its
`check_outputs` accepts a back-referenced output declared either as Hash or
as Number (trying Hash first, then Number), and its `fill` converts a Hash
output into a `HashOrNumber::Hash` scalar and a Number output into a
`HashOrNumber::Number` scalar — a Number is never coerced into a Hash. -/
theorem headers_start_polymorphic_spec (r idx skip mx : Nat) (rev : Bool)
    (declared : OutputKind) (h n : Nat) :
    (header.Incomplete.check_outputs ⟨.backReference r idx, skip, mx, rev⟩
        (fun r' i' k => if r' = r ∧ i' = idx ∧ k = declared then .ok () else
          .error .noSuchOutput) = .ok ())
    ∧ header.Incomplete.fill ⟨.backReference r idx, skip, mx, rev⟩
        (fun _ _ => .ok (.hash h)) = ⟨.scalar (.hash h), skip, mx, rev⟩
    ∧ header.Incomplete.fill ⟨.backReference r idx, skip, mx, rev⟩
        (fun _ _ => .ok (.number n)) = ⟨.scalar (.number n), skip, mx, rev⟩ := by
  refine ⟨?_, rfl, rfl⟩
  cases declared <;> simp [header.Incomplete.check_outputs]

/-- Claim C5.  Body verification succeeds only when the ordered trie root
of the body's transaction list equals `header.transactions_root` and the
domain hash of the raw uncles list equals `header.uncles_hash`, and on
success returns the header concatenated with the verified body as the
encoded block `[header, [transactions, uncles]]`; in particular, for a
header whose roots match the empty lists and a body of two empty lists,
the result is the block `[header, [[], []]]`. -/
theorem body_check_response_spec (sha3 : Rlp → Nat) (otr : List Rlp → Nat)
    (hdr : on_demand.TrustedHeader) (txs uncles : List Rlp) :
    (∀ b, on_demand.bodyCheckResponse sha3 otr hdr txs uncles = .ok b →
      otr txs = hdr.transactionsRoot ∧ sha3 (.list uncles) = hdr.unclesHash ∧
        b = .list [hdr.raw, .list [.list txs, .list uncles]])
    ∧ (otr [] = hdr.transactionsRoot → sha3 (.list []) = hdr.unclesHash →
        on_demand.bodyCheckResponse sha3 otr hdr [] [] =
          .ok (.list [hdr.raw, .list [.list [], .list []]])) := by
  constructor
  · intro b hb
    unfold on_demand.bodyCheckResponse at hb
    by_cases h1 : otr txs = hdr.transactionsRoot
    · by_cases h2 : sha3 (.list uncles) = hdr.unclesHash
      · simp only [h1, h2, ne_eq, not_true_eq_false, if_false, Except.ok.injEq] at hb
        exact ⟨h1, h2, hb.symm⟩
      · simp [h1, h2] at hb
    · simp [h1] at hb
  · intro h1 h2
    unfold on_demand.bodyCheckResponse
    simp [h1, h2]

/-- Claim C5 witness: with trivial hash parameters and a header whose
transactions root and uncles hash both equal the hashes of the empty
lists, a body of two empty lists verifies to the block
`[header, [[], []]]`. -/
theorem body_check_response_spec_witness :
    on_demand.bodyCheckResponse (fun _ => 0) (fun _ => 0) ⟨.str [], 0, 0⟩ [] [] =
      .ok (.list [.str [], .list [.list [], .list []]]) :=
  (body_check_response_spec (fun _ => 0) (fun _ => 0) ⟨.str [], 0, 0⟩ [] []).2 rfl rfl

/-- Claim C8.  For every input and configured divisor, the modexp pricer
built by the JSON conversion returns
`floor(max(mod_len, base_len)^2 * max(exp_len, 1) / divisor)` over the
three 32-byte big-endian length words of the zero-extended input, returns
`U256::max_value()` whenever either multiplication overflows U256, and a
configured divisor of zero is replaced by the default 10. -/
theorem modexp_cost_spec (d : Nat) (input : List Nat) :
    builtin.modexpCost (builtin.modexpDivisorFromJson d) input =
      (if builtin.U256limit ≤
            max (builtin.readLenWord input 64) (builtin.readLenWord input 0) *
              max (builtin.readLenWord input 64) (builtin.readLenWord input 0)
          ∨ builtin.U256limit ≤
            max (builtin.readLenWord input 64) (builtin.readLenWord input 0) *
              max (builtin.readLenWord input 64) (builtin.readLenWord input 0) *
              max (builtin.readLenWord input 32) 1
        then builtin.u256Max
        else
          max (builtin.readLenWord input 64) (builtin.readLenWord input 0) *
              max (builtin.readLenWord input 64) (builtin.readLenWord input 0) *
              max (builtin.readLenWord input 32) 1 /
            (if d = 0 then 10 else d)) := by
  unfold builtin.modexpCost builtin.overflowingMul builtin.modexpDivisorFromJson
  set m := max (builtin.readLenWord input 64) (builtin.readLenWord input 0) with hm
  set e := max (builtin.readLenWord input 32) 1 with he
  by_cases h1 : builtin.U256limit ≤ m * m
  · simp [h1]
  · have hmod : m * m % builtin.U256limit = m * m :=
      Nat.mod_eq_of_lt (Nat.lt_of_not_le h1)
    by_cases h2 : builtin.U256limit ≤ m * m * e
    · simp [h1, hmod, h2]
    · simp [h1, hmod, h2, ← he, Nat.mod_eq_of_lt (Nat.lt_of_not_le h2)]

/-- Claim C9.  Decoding a `Field<T>` yields a Scalar for discriminant 0, a
BackReference read from the two-element inner list for discriminant 1, and
fails with the unknown-discriminant error for every other discriminant. -/
theorem field_decode_spec (decT : Rlp → Except DecoderError T) (payload : Rlp)
    (db bs1 bs2 : List Nat) (hdb : db.length ≤ 1) (hb1 : bs1.length ≤ 8)
    (hb2 : bs2.length ≤ 8) :
    (beToNat db = 0 →
      fieldDecode decT (.list [.str db, payload]) = (decT payload).map Field.scalar)
    ∧ (beToNat db = 1 →
        fieldDecode decT (.list [.str db, .list [.str bs1, .str bs2]]) =
          .ok (.backReference (beToNat bs1) (beToNat bs2)))
    ∧ (2 ≤ beToNat db →
        fieldDecode decT (.list [.str db, payload]) =
          .error (.custom "Unknown discriminant for PIP field.")) := by
  have hd : decU8 (Rlp.str db) = .ok (beToNat db) := by simp [decU8, hdb]
  refine ⟨fun h0 => ?_, fun h1 => ?_, fun h2 => ?_⟩
  · simp only [fieldDecode, rlpAt, List.get?, hd, except_bind_ok, h0]
    cases decT payload <;> rfl
  · simp only [fieldDecode, rlpAt, List.get?, hd, except_bind_ok, h1]
    simp [decUsize, hb1, hb2, rlpAt, except_bind_ok]
  · obtain ⟨k, hk⟩ : ∃ k, beToNat db = k + 2 := ⟨beToNat db - 2, by omega⟩
    simp only [fieldDecode, rlpAt, List.get?, hd, except_bind_ok, hk]
    rfl

/-- Claim C9 witness: discriminant 0 decodes to a scalar, discriminant 1 to
the back-reference `(0, 3)`, and discriminant 2 to the
unknown-discriminant error. -/
theorem field_decode_spec_witness :
    fieldDecode (fun r => Except.ok r) (.list [.str [], .str []]) =
      .ok (Field.scalar (Rlp.str []))
    ∧ fieldDecode (fun r => Except.ok r) (.list [.str [1], .list [.str [], .str [3]]]) =
      .ok (.backReference 0 3)
    ∧ fieldDecode (fun r => Except.ok r) (.list [.str [2], .str []]) =
      .error (.custom "Unknown discriminant for PIP field.") :=
  ⟨(field_decode_spec (fun r => Except.ok r) (.str []) [] [] []
      (by decide) (by decide) (by decide)).1 rfl,
    (field_decode_spec (fun r => Except.ok r) (.str []) [1] [] [3]
      (by decide) (by decide) (by decide)).2.1 rfl,
    (field_decode_spec (fun r => Except.ok r) (.str []) [2] [] []
      (by decide) (by decide) (by decide)).2.2 (by decide)⟩

/-- Claim C3.  `seal_signatures(p, c, h)` returns `Some` exactly when the
round-`p` entry holds at least one signature for `h` and the round-`c`
entry holds at least one signature for `h`; on `Some` the resulting state
drops every round strictly older than `c`, and on `None` the state is
unchanged. -/
theorem seal_signatures_spec (vc : vote_collector.VoteCollector) (p c h : Nat) :
    ((vote_collector.seal_signatures vc p c h).1.isSome =
      (vote_collector.hasSigFor vc p h && vote_collector.hasSigFor vc c h))
    ∧ ((vote_collector.seal_signatures vc p c h).2 =
        if vote_collector.hasSigFor vc p h && vote_collector.hasSigFor vc c h
        then vc.filter (fun e => c ≤ e.1)
        else vc) := by
  unfold vote_collector.seal_signatures vote_collector.hasSigFor
    vote_collector.throw_out_old
  rcases hp : (vote_collector.mapGet p vc).bind
      (fun cc => vote_collector.mapGet (some h) cc.block_votes) with _ | proposals
  · simp [hp]
  · rcases proposals with _ | ⟨pr, prs⟩
    · simp [hp]
    · rcases hc : (vote_collector.mapGet c vc).bind
          (fun cc => vote_collector.mapGet (some h) cc.block_votes) with _ | sigs
      · simp [hp, hc]
      · rcases sigs with _ | ⟨s0, ss⟩
        · simp [hp, hc]
        · simp [hp, hc]

/-- Claim C4.  Inserting a signer's first vote message of a round returns no
double-vote signal; inserting a distinct unseen message from a signer who
already voted that round returns that signer's address; re-inserting an
already-seen message returns no signal and leaves the collector unchanged. -/
theorem vote_insert_signal_spec (vc : vote_collector.VoteCollector)
    (m : vote_collector.Msg) (a : Nat) :
    (vote_collector.seen vc m = false → vote_collector.votedAt vc m.round a = false →
      (vote_collector.vote vc m a).1 = none)
    ∧ (vote_collector.seen vc m = false → vote_collector.votedAt vc m.round a = true →
        (vote_collector.vote vc m a).1 = some a)
    ∧ (vote_collector.seen vc m = true →
        vote_collector.vote vc m a = (none, vc)) := by
  rcases hv : vote_collector.mapGet m.round vc with _ | cs
  · refine ⟨fun _ _ => ?_, fun _ hvoted => ?_, fun hseen => ?_⟩
    · simp [vote_collector.vote, vote_collector.StepCollector.insert,
        vote_collector.insertSet, hv]
    · simp only [vote_collector.votedAt, hv] at hvoted
      cases hvoted
    · simp only [vote_collector.seen, hv] at hseen
      cases hseen
  · refine ⟨fun hseen hvoted => ?_, fun hseen hvoted => ?_, fun hseen => ?_⟩
    · simp only [vote_collector.seen, hv] at hseen
      simp only [vote_collector.votedAt, hv] at hvoted
      have hm := of_decide_eq_false hseen
      have ha := of_decide_eq_false hvoted
      simp [vote_collector.vote, vote_collector.StepCollector.insert,
        vote_collector.insertSet, hv, hm, ha]
    · simp only [vote_collector.seen, hv] at hseen
      simp only [vote_collector.votedAt, hv] at hvoted
      have hm := of_decide_eq_false hseen
      have ha := of_decide_eq_true hvoted
      simp [vote_collector.vote, vote_collector.StepCollector.insert,
        vote_collector.insertSet, hv, hm, ha]
    · simp only [vote_collector.seen, hv] at hseen
      have hm := of_decide_eq_true hseen
      simp [vote_collector.vote, vote_collector.StepCollector.insert,
        vote_collector.insertSet, hv, hm, mapInsert_self hv]

/-- Claim C4 witness: on an empty collector, a first vote gives no signal;
a second, distinct message by the same signer in the same round returns the
signer's address; re-inserting the first message gives no signal and leaves
the state unchanged. -/
theorem vote_insert_signal_spec_witness :
    (vote_collector.vote [] ⟨1, some 2, 3, 0⟩ 9).1 = none
    ∧ (vote_collector.vote (vote_collector.vote [] ⟨1, some 2, 3, 0⟩ 9).2
        ⟨1, some 4, 5, 1⟩ 9).1 = some 9
    ∧ vote_collector.vote (vote_collector.vote [] ⟨1, some 2, 3, 0⟩ 9).2
        ⟨1, some 2, 3, 0⟩ 9 = (none, (vote_collector.vote [] ⟨1, some 2, 3, 0⟩ 9).2) :=
  ⟨(vote_insert_signal_spec [] ⟨1, some 2, 3, 0⟩ 9).1 (by decide) (by decide),
    (vote_insert_signal_spec _ ⟨1, some 4, 5, 1⟩ 9).2.1 (by decide) (by decide),
    (vote_insert_signal_spec _ ⟨1, some 2, 3, 0⟩ 9).2.2 (by decide)⟩

/-- Claim C10.  When inserting a vote returns a double-voter signal, the
round's recorded votes are unchanged: the second, distinct message is added
only to the seen-message set, and both the aligned-vote counts and the
per-round vote counts are unchanged by the call. -/
theorem vote_double_vote_frame_spec (vc : vote_collector.VoteCollector)
    (m : vote_collector.Msg) (a : Nat)
    (hseen : vote_collector.seen vc m = false)
    (hvoted : vote_collector.votedAt vc m.round a = true) :
    (∃ cs, vote_collector.mapGet m.round vc = some cs ∧
      vote_collector.vote vc m a =
        (some a,
          vote_collector.mapInsert m.round { cs with messages := m :: cs.messages } vc))
    ∧ (∀ m', vote_collector.count_aligned_votes (vote_collector.vote vc m a).2 m' =
        vote_collector.count_aligned_votes vc m')
    ∧ (∀ r, vote_collector.count_round_votes (vote_collector.vote vc m a).2 r =
        vote_collector.count_round_votes vc r) := by
  rcases hv : vote_collector.mapGet m.round vc with _ | cs
  · simp only [vote_collector.votedAt, hv] at hvoted
    cases hvoted
  · simp only [vote_collector.seen, hv] at hseen
    simp only [vote_collector.votedAt, hv] at hvoted
    have hm := of_decide_eq_false hseen
    have ha := of_decide_eq_true hvoted
    have hst : vote_collector.vote vc m a =
        (some a,
          vote_collector.mapInsert m.round { cs with messages := m :: cs.messages } vc) := by
      simp [vote_collector.vote, vote_collector.StepCollector.insert,
        vote_collector.insertSet, hv, hm, ha]
    have hst2 : (vote_collector.vote vc m a).2 =
        vote_collector.mapInsert m.round { cs with messages := m :: cs.messages } vc := by
      rw [hst]
    refine ⟨⟨cs, rfl, hst⟩, fun m' => ?_, fun r => ?_⟩
    · rw [hst2]
      unfold vote_collector.count_aligned_votes
      by_cases hr : m'.round = m.round
      · rw [hr, mapGet_mapInsert_self, hv]
        rfl
      · rw [mapGet_mapInsert_ne _ _ hr]
    · rw [hst2]
      unfold vote_collector.count_round_votes
      by_cases hr : r = m.round
      · rw [hr, mapGet_mapInsert_self, hv]
        rfl
      · rw [mapGet_mapInsert_ne _ _ hr]


/-- Claim C10 witness: a double vote on a concrete two-vote history leaves
the aligned and per-round vote counts unchanged. -/
theorem vote_double_vote_frame_spec_witness :
    vote_collector.count_aligned_votes
        (vote_collector.vote (vote_collector.vote [] ⟨1, some 2, 3, 0⟩ 9).2
          ⟨1, some 4, 5, 1⟩ 9).2 ⟨1, some 4, 5, 1⟩ =
      vote_collector.count_aligned_votes (vote_collector.vote [] ⟨1, some 2, 3, 0⟩ 9).2
        ⟨1, some 4, 5, 1⟩
    ∧ vote_collector.count_round_votes
        (vote_collector.vote (vote_collector.vote [] ⟨1, some 2, 3, 0⟩ 9).2
          ⟨1, some 4, 5, 1⟩ 9).2 1 =
      vote_collector.count_round_votes (vote_collector.vote [] ⟨1, some 2, 3, 0⟩ 9).2 1 :=
  ⟨(vote_double_vote_frame_spec _ ⟨1, some 4, 5, 1⟩ 9 (by decide) (by decide)).2.1
      ⟨1, some 4, 5, 1⟩,
    (vote_double_vote_frame_spec _ ⟨1, some 4, 5, 1⟩ 9 (by decide) (by decide)).2.2 1⟩

end Parity
